import Mathlib

/-!
Verification of the `amp-story` progress bar
(`src/extensions/amp-story/1.0/progress-bar.js`).

The JavaScript class `ProgressBar` is shallowly embedded as a pure state
machine: the mutable fields of the class become a `State` record, every
method that mutates fields becomes a function `State → State` (or returns
additional observable outputs, such as the list of per-segment style
writes), and DOM elements are named by the order in which
`buildSegmentEl_` created them.  All indices and counters are `Int`
(JavaScript numbers used only integrally); fractional progress values are
`ℚ` (the source only compares them with 0 and 1 and passes them through).
-/

namespace ProgressBar

/-- `MAX_SEGMENTS` from the source: maximum number of segments shown at a
time before collapsing into ellipsis. -/
def MAX_SEGMENTS : Int := 20

/-- `SEGMENT_INCREMENT` from the source: number of segments introduced as
an overflow point is passed. -/
def SEGMENT_INCREMENT : Int := 5

/-- `ELLIPSE_WIDTH_PX` from the source. -/
def ELLIPSE_WIDTH_PX : ℚ := 2

/-- `SEGMENTS_MARGIN_PX` from the source. -/
def SEGMENTS_MARGIN_PX : ℚ := 2

/-- The mutable fields of the `ProgressBar` class that the windowing,
registry and progress logic read or write.  DOM elements are represented
by the `Nat` creation counter `nextElem`: `buildSegmentEl_` appends the
fresh element id both to `segments` (the `segments_` array) and to
`rootChildren` (the children of `root_`). -/
structure State where
  segmentIdMap : List (String × Int)
  segmentCount : Int
  segments : List Nat
  rootChildren : List Nat
  nextElem : Nat
  activeSegmentIndex : Int
  activeSegmentProgress : ℚ
  activeSegmentId : String
  firstExpandedSegmentIndex : Int
  deriving Repr, DecidableEq

/-- The field values set by the `ProgressBar` constructor. -/
def initState : State :=
  { segmentIdMap := []
    segmentCount := 0
    segments := []
    rootChildren := []
    nextElem := 0
    activeSegmentIndex := 0
    activeSegmentProgress := 1
    activeSegmentId := ""
    firstExpandedSegmentIndex := 0 }

/-- `this.segmentIdMap_[id]`: look up the index assigned to a segment id. -/
def lookupId (m : List (String × Int)) (id : String) : Option Int :=
  (m.find? (fun pr => pr.1 = id)).map (fun pr => pr.2)

/-- `hasOwn(this.segmentIdMap_, id)`. -/
def hasOwnId (m : List (String × Int)) (id : String) : Bool :=
  (lookupId m id).isSome

/-- `clear_()`: `removeChildren(this.root_)`, reset the id map, set the
segment count to 0.  Note that the source does not reset `segments_`,
`activeSegmentIndex_` or `firstExpandedSegmentIndex_` here. -/
def clearOp (s : State) : State :=
  { s with rootChildren := [], segmentIdMap := [], segmentCount := 0 }

/-- `buildSegmentEl_()`: create a fresh element, append it to the root's
children and push it onto the `segments_` array. -/
def buildSegmentEl (s : State) : State :=
  { s with
      rootChildren := s.rootChildren ++ [s.nextElem]
      segments := s.segments ++ [s.nextElem]
      nextElem := s.nextElem + 1 }

/-- `addSegment_(id)`: assign `id` the next index and build its element. -/
def addSegmentRaw (s : State) (id : String) : State :=
  buildSegmentEl
    { s with
        segmentIdMap := s.segmentIdMap ++ [(id, s.segmentCount)]
        segmentCount := s.segmentCount + 1 }

/-- The guarded registration performed by the `PAGE_IDS` subscription:
`if (!(id in this.segmentIdMap_)) this.addSegment_(id)`. -/
def addSegment (s : State) (id : String) : State :=
  if hasOwnId s.segmentIdMap id then s else addSegmentRaw s id

/-- Registering a whole page-id list on a fresh component (the initial
`PAGE_IDS` subscription callback, before the bar is built). -/
def buildFromIds (ids : List String) : State :=
  ids.foldl addSegment initState

/-- `getNextEllipsisCount_()`: number of ellipses to the right (LTR) of
the expanded segments. -/
def getNextEllipsisCount (firstExpandedSegmentIndex segmentCount : Int) : Int :=
  let nextPagesCount := segmentCount - (firstExpandedSegmentIndex + MAX_SEGMENTS)
  if nextPagesCount > 3 then 3 else max nextPagesCount 0

/-- `getPrevEllipsisCount_()`: number of ellipses to the left (LTR) of the
expanded segments. -/
def getPrevEllipsisCount (firstExpandedSegmentIndex : Int) : Int :=
  min 3 firstExpandedSegmentIndex

/-- `checkIndexForOverflow_()` as a function of the fields it reads
(`activeSegmentIndex_`, `firstExpandedSegmentIndex_`, `segmentCount_`).
Returns the new `firstExpandedSegmentIndex_` and whether `render_()` was
invoked. -/
def checkIndexForOverflow (activeSegmentIndex firstExpandedSegmentIndex segmentCount : Int) :
    Int × Bool :=
  if activeSegmentIndex ≥ firstExpandedSegmentIndex + MAX_SEGMENTS then
    let nextLimit := firstExpandedSegmentIndex + MAX_SEGMENTS + SEGMENT_INCREMENT - 1
    (firstExpandedSegmentIndex +
      (if nextLimit < segmentCount then SEGMENT_INCREMENT
       else segmentCount - (firstExpandedSegmentIndex + MAX_SEGMENTS)), true)
  else if activeSegmentIndex < firstExpandedSegmentIndex then
    (firstExpandedSegmentIndex -
      (if firstExpandedSegmentIndex - SEGMENT_INCREMENT < 0 then firstExpandedSegmentIndex
       else SEGMENT_INCREMENT), true)
  else
    (firstExpandedSegmentIndex, false)

/-- `getInitialFirstExpandedSegmentIndex_(segmentIndex)` as a function of
the fields it reads; returns the new `firstExpandedSegmentIndex_`. -/
def getInitialFirstExpandedSegmentIndex
    (segmentIndex segmentCount firstExpandedSegmentIndex : Int) : Int :=
  if segmentIndex > MAX_SEGMENTS ∧ segmentIndex + MAX_SEGMENTS < segmentCount then
    segmentIndex - segmentIndex % MAX_SEGMENTS
  else if segmentIndex > MAX_SEGMENTS then
    segmentCount - MAX_SEGMENTS
  else
    firstExpandedSegmentIndex

/-- Window move rule exactly as the specification words it (§4.2
`checkOverflow`): advance by `recenterStep` when
`nextLimit < segmentCount`, otherwise end the window at `segmentCount`;
recede by `recenterStep` clamped at 0; otherwise unchanged, no relayout. -/
def checkOverflowSpec (activeIndex firstVisibleIndex segmentCount : Int) : Int × Bool :=
  if activeIndex ≥ firstVisibleIndex + MAX_SEGMENTS then
    if firstVisibleIndex + MAX_SEGMENTS + SEGMENT_INCREMENT - 1 < segmentCount then
      (firstVisibleIndex + SEGMENT_INCREMENT, true)
    else
      (segmentCount - MAX_SEGMENTS, true)
  else if activeIndex < firstVisibleIndex then
    (max 0 (firstVisibleIndex - SEGMENT_INCREMENT), true)
  else
    (firstVisibleIndex, false)

/-- Initial-window rule exactly as claim C4 words it, for a first update
(where `firstVisibleIndex` is still 0). -/
def initialWindowSpec (activeIndex segmentCount : Int) : Int :=
  if activeIndex > MAX_SEGMENTS ∧ activeIndex + MAX_SEGMENTS < segmentCount then
    activeIndex - activeIndex % MAX_SEGMENTS
  else if activeIndex > MAX_SEGMENTS then
    segmentCount - MAX_SEGMENTS
  else
    0

/-- One style write issued through `updateProgressByIndex_`: the target
segment index, the scaleX progress value, and the `withTransition` flag. -/
structure FillWrite where
  index : Int
  progress : ℚ
  withTransition : Bool
  deriving Repr, DecidableEq

/-- The `shouldAnimatePreviousSegment` boolean computed at the top of
`updateSegments_`, as the disjunction of the three sequential `if`s. -/
def shouldAnimatePrevious (activeSegmentIndex : Int) (activeSegmentProgress : ℚ)
    (prevSegmentIndex : Int) (prevSegmentProgress : ℚ) : Bool :=
  (decide (prevSegmentProgress = 1) && decide (activeSegmentProgress = 1)) ||
    (decide (activeSegmentIndex > prevSegmentIndex) && decide (activeSegmentProgress ≠ 1)) ||
    (decide (prevSegmentIndex > activeSegmentIndex) && decide (activeSegmentProgress = 1))

/-- The `for` loop of `updateSegments_`, iterating `k` indices starting at
`i`: skip the active segment, otherwise write fill 1 before the active
index and 0 after, animating only the previous segment when flagged. -/
def segLoop (activeSegmentIndex prevSegmentIndex : Int) (animPrev : Bool) (i : Int) :
    Nat → List FillWrite
  | 0 => []
  | k + 1 =>
    if i = activeSegmentIndex then
      segLoop activeSegmentIndex prevSegmentIndex animPrev (i + 1) k
    else
      { index := i
        progress := if i < activeSegmentIndex then 1 else 0
        withTransition := animPrev && decide (i = prevSegmentIndex) } ::
        segLoop activeSegmentIndex prevSegmentIndex animPrev (i + 1) k

/-- `updateSegments_(activeSegmentIndex, activeSegmentProgress,
prevSegmentIndex, prevSegmentProgress)`: the list of style writes it
issues, in loop order. -/
def updateSegments (activeSegmentIndex : Int) (activeSegmentProgress : ℚ)
    (prevSegmentIndex : Int) (prevSegmentProgress : ℚ) (segmentCount : Int) :
    List FillWrite :=
  segLoop activeSegmentIndex prevSegmentIndex
    (shouldAnimatePrevious activeSegmentIndex activeSegmentProgress prevSegmentIndex
      prevSegmentProgress)
    0 segmentCount.toNat

/-- Observable outcome of one `updateProgress` call: the new state, the
fill writes issued (in order), whether the no-active-segment branch ran
(`getInitialFirstExpandedSegmentIndex_` plus a forced non-animated
`render_`), and whether `checkIndexForOverflow_` triggered a `render_`. -/
structure UpdateOutcome where
  state : State
  fills : List FillWrite
  ranInitialWindow : Bool
  overflowRender : Bool
  deriving Repr, DecidableEq

/-- The body of `updateProgress` after the id has been resolved to
`segmentIndex`. -/
def updateProgressCore (s : State) (segmentId : String) (segmentIndex : Int)
    (progress : ℚ) (updateAllSegments : Bool) : UpdateOutcome :=
  let ranInitial := decide (s.activeSegmentIndex = 0)
  let fv1 :=
    if s.activeSegmentIndex = 0 then
      getInitialFirstExpandedSegmentIndex segmentIndex s.segmentCount
        s.firstExpandedSegmentIndex
    else s.firstExpandedSegmentIndex
  let syncFills :=
    if s.activeSegmentIndex ≠ segmentIndex ∨ updateAllSegments = true then
      updateSegments segmentIndex progress s.activeSegmentIndex s.activeSegmentProgress
        s.segmentCount
    else []
  let res := checkIndexForOverflow segmentIndex fv1 s.segmentCount
  { state :=
      { s with
          activeSegmentProgress := progress
          activeSegmentIndex := segmentIndex
          activeSegmentId := segmentId
          firstExpandedSegmentIndex := res.1 }
    fills := { index := segmentIndex, progress := progress, withTransition := true } :: syncFills
    ranInitialWindow := ranInitial
    overflowRender := res.2 }

/-- `updateProgress(segmentId, progress, updateAllSegments)`.  The leading
`assertVaildSegmentId_` aborts the whole callback when the id is not in
the map, before any field or style is touched; this is the `error`
branch. -/
def updateProgress (s : State) (segmentId : String) (progress : ℚ)
    (updateAllSegments : Bool) : Except String UpdateOutcome :=
  match lookupId s.segmentIdMap segmentId with
  | none => Except.error "Invalid segment-id passed to progress-bar"
  | some segmentIndex =>
    Except.ok (updateProgressCore s segmentId segmentIndex progress updateAllSegments)

/-- `replay_()`: reset the window to 0 (the subsequent `render_(false)`
changes no state field). -/
def replayOp (s : State) : State :=
  { s with firstExpandedSegmentIndex := 0 }

/-- Whether an `updateProgress` call aborted on the unknown-id assertion. -/
def isErrorResult : Except String UpdateOutcome → Bool
  | Except.error _ => true
  | Except.ok _ => false

/-- `getSegmentWidth_()`: the width of one expanded segment. -/
def getSegmentWidth (firstExpandedSegmentIndex segmentCount : Int) (barWidthPx : ℚ) : ℚ :=
  let nextEllipsisCount := getNextEllipsisCount firstExpandedSegmentIndex segmentCount
  let prevEllipsisCount := getPrevEllipsisCount firstExpandedSegmentIndex
  let totalEllipsisWidth :=
    ((nextEllipsisCount + prevEllipsisCount : Int) : ℚ) * (ELLIPSE_WIDTH_PX + SEGMENTS_MARGIN_PX)
  let totalSegmentsWidth := barWidthPx - totalEllipsisWidth
  totalSegmentsWidth / ((min segmentCount MAX_SEGMENTS : Int) : ℚ) - SEGMENTS_MARGIN_PX

/-- The loop of `render_()`: for `k` segments starting at index `i` with
running offset `tx`, emit each segment's `(translateX, width)` pair. -/
def layoutFrom (firstExpandedSegmentIndex : Int) (segmentWidth : ℚ) (tx : ℚ) (i : Int) :
    Nat → List (ℚ × ℚ)
  | 0 => []
  | k + 1 =>
    let width :=
      if firstExpandedSegmentIndex ≤ i ∧ i < firstExpandedSegmentIndex + MAX_SEGMENTS then
        segmentWidth
      else ELLIPSE_WIDTH_PX
    (tx, width) ::
      layoutFrom firstExpandedSegmentIndex segmentWidth (tx + width + SEGMENTS_MARGIN_PX)
        (i + 1) k

/-- `render_()`: the per-segment `(translateX, width)` values handed to
`transform_`, for a given window state and bar width.  Note the
computation reads no direction flag. -/
def renderLayout (firstExpandedSegmentIndex segmentCount : Int) (barWidthPx : ℚ) :
    List (ℚ × ℚ) :=
  let segmentWidth := getSegmentWidth firstExpandedSegmentIndex segmentCount barWidthPx
  let tx0 : ℚ :=
    -(((firstExpandedSegmentIndex - getPrevEllipsisCount firstExpandedSegmentIndex : Int) : ℚ) *
      (ELLIPSE_WIDTH_PX + SEGMENTS_MARGIN_PX))
  layoutFrom firstExpandedSegmentIndex segmentWidth tx0 0 segmentCount.toNat

/-- `transform_(segment, translateX, width)`: the applied style, namely
the effective translateX (negated under RTL) and the scaleX factor
`width / ELLIPSE_WIDTH_PX`. -/
def appliedTransform (rtlState : Bool) (pr : ℚ × ℚ) : ℚ × ℚ :=
  ((if rtlState then -pr.1 else pr.1), pr.2 / ELLIPSE_WIDTH_PX)

/-- The states reachable through the public operations: an initial
registration of a page-id list on a fresh component, then any sequence of
successful `updateProgress` calls and replay events. -/
inductive Reachable : State → Prop
  | build (ids : List String) : Reachable (buildFromIds ids)
  | update (s : State) (id : String) (p : ℚ) (u : Bool) (out : UpdateOutcome) :
      Reachable s → updateProgress s id p u = Except.ok out → Reachable out.state
  | replay (s : State) : Reachable s → Reachable (replayOp s)

/-- The window/active dynamics of one `updateProgress` call for resolved
index `i`: the pair is `(activeSegmentIndex, firstExpandedSegmentIndex)`. -/
def windowStep (segmentCount : Int) (st : Int × Int) (i : Int) : Int × Int :=
  let fv1 :=
    if st.1 = 0 then getInitialFirstExpandedSegmentIndex i segmentCount st.2 else st.2
  (i, (checkIndexForOverflow i fv1 segmentCount).1)

/-- `(activeSegmentIndex, firstExpandedSegmentIndex)` after issuing, from
a fresh state with `n` segments, progress updates for indices
`0, 1, …, k-1` in order. -/
def walkFv (n : Int) : Nat → Int × Int
  | 0 => (0, 0)
  | k + 1 => windowStep n (walkFv n k) (k : Int)

/-- Observation helper: the new state of a successful update. -/
def okStateOf : Except String UpdateOutcome → Option State
  | Except.ok o => some o.state
  | Except.error _ => none

/-- Observation helper: whether a successful update ran the initial-window
branch. -/
def okRanInitialWindow : Except String UpdateOutcome → Option Bool
  | Except.ok o => some o.ranInitialWindow
  | Except.error _ => none

/-- Run one update, keeping the old state on the assertion failure. -/
def stepOrSame (s : State) (id : String) (p : ℚ) : State :=
  match updateProgress s id p false with
  | Except.ok o => o.state
  | Except.error _ => s

/-- Fifty distinct page ids, for the worked example of the spec. -/
def fiftyIds : List String := (List.range 50).map (fun k => toString k)

set_option maxRecDepth 10000

/-- C3: the overflow check agrees everywhere with the specification's
window-move rule. -/
theorem checkIndexForOverflow_eq_spec (a fv n : Int) :
    checkIndexForOverflow a fv n = checkOverflowSpec a fv n := by
  unfold checkIndexForOverflow checkOverflowSpec MAX_SEGMENTS SEGMENT_INCREMENT
  split_ifs with h1 h2 h3 h4 <;> simp <;> omega

/-- C4: on a first progress update (window still at 0) the initial window
is chosen exactly by the claimed policy, and the worked example
(`windowSize = 20`, `n = 50`, first update for index 25 with progress
one half) yields `firstVisibleIndex = 20` with 3 leading and 3 trailing
overflow markers. -/
theorem initialWindow_policy_and_example :
    (∀ activeIndex segmentCount : Int,
        getInitialFirstExpandedSegmentIndex activeIndex segmentCount 0 =
          initialWindowSpec activeIndex segmentCount) ∧
      (okStateOf (updateProgress (buildFromIds fiftyIds) "25" (1 / 2) false)).map
          (fun st => st.firstExpandedSegmentIndex) = some 20 ∧
      getPrevEllipsisCount 20 = 3 ∧ getNextEllipsisCount 20 50 = 3 :=
  ⟨fun _ _ => rfl, by decide⟩

/-- C8: an `updateProgress` call aborts on the unknown-segment assertion
exactly when the id is not registered, and `clear_` unregisters every id.
The assertion is the first statement of `updateProgress`, so the `error`
result carries no state change at all. -/
theorem updateProgress_unknown_segment :
    (∀ (s : State) (id : String) (p : ℚ) (u : Bool),
        isErrorResult (updateProgress s id p u) = (lookupId s.segmentIdMap id).isNone) ∧
      ∀ (s : State) (id : String), lookupId (clearOp s).segmentIdMap id = none := by
  constructor
  · intro s id p u
    unfold updateProgress isErrorResult
    cases lookupId s.segmentIdMap id <;> simp
  · intro s id
    rfl

/-- C9: for any window state, segment count and bar width, switching the
direction flag negates every applied horizontal offset and leaves every
applied scaleX width unchanged; the stored layout (`renderLayout`, which
reads no direction flag) is the same in both cases. -/
theorem rtl_negates_offsets_preserves_widths :
    ∀ (firstExpandedSegmentIndex segmentCount : Int) (barWidthPx : ℚ),
      (renderLayout firstExpandedSegmentIndex segmentCount barWidthPx).map
          (appliedTransform true) =
        (renderLayout firstExpandedSegmentIndex segmentCount barWidthPx).map
          (fun pr =>
            (-(appliedTransform false pr).1, (appliedTransform false pr).2)) := by
  intro fv n bw
  generalize renderLayout fv n bw = l
  induction l with
  | nil => rfl
  | cons hd tl ih => simp [appliedTransform]

/-- C10: an update resolving to the currently active index with
`updateAllSegments = false` issues exactly one fill write, to the active
segment itself; the resynchronization loop over the other segments does
not run. -/
theorem active_self_update_writes_only_active :
    ∀ (s : State) (id : String) (p : ℚ) (out : UpdateOutcome),
      updateProgress s id p false = Except.ok out →
      lookupId s.segmentIdMap id = some s.activeSegmentIndex →
      out.fills =
        [{ index := s.activeSegmentIndex, progress := p, withTransition := true }] := by
  intro s id p out hok hlook
  unfold updateProgress at hok
  rw [hlook] at hok
  injection hok with h
  subst h
  unfold updateProgressCore
  simp

/-- Witness for C10 at a concrete one-segment state. -/
theorem active_self_update_writes_only_active_witness :
    (updateProgressCore (buildFromIds ["a"]) "a" 0 (1 / 2) false).fills =
      [{ index := 0, progress := (1 / 2 : ℚ), withTransition := true }] :=
  active_self_update_writes_only_active (buildFromIds ["a"]) "a" (1 / 2) _ rfl (by decide)

/-- C1 counterexample: on the third update of a three-segment story
(b, then a, then b again) the initial-window branch runs again even
though a previously active segment exists — the branch is guarded by
`!this.activeSegmentIndex_`, which is true whenever the active index is
0, not only on the first call. -/
theorem initial_window_reruns_after_index_zero :
    let s0 := buildFromIds ["a", "b", "c"]
    let s1 := stepOrSame s0 "b" 1
    let s2 := stepOrSame s1 "a" 1
    okRanInitialWindow (updateProgress s2 "b" 1 false) = some true ∧
      okRanInitialWindow (updateProgress s1 "a" 1 false) = some false ∧
      s2.activeSegmentId = "a" := by
  decide

/-- C1 amended: a successful `updateProgress` runs the initial-window
computation and forced non-animated relayout exactly when the stored
active segment index is 0 at the start of the call. -/
theorem initial_window_iff_active_index_zero :
    ∀ (s : State) (id : String) (p : ℚ) (u : Bool) (out : UpdateOutcome),
      updateProgress s id p u = Except.ok out →
      (out.ranInitialWindow = true ↔ s.activeSegmentIndex = 0) := by
  intro s id p u out hok
  unfold updateProgress at hok
  cases hlook : lookupId s.segmentIdMap id with
  | none => rw [hlook] at hok; cases hok
  | some idx =>
    rw [hlook] at hok
    injection hok with h
    subst h
    unfold updateProgressCore
    simp

/-- Witness for the amended C1: the first call on a fresh story reports
the branch as taken, and the fresh active index is 0. -/
theorem initial_window_iff_active_index_zero_witness :
    ((updateProgressCore (buildFromIds ["a", "b", "c"]) "b" 1 1 false).ranInitialWindow =
        true ↔
      (buildFromIds ["a", "b", "c"]).activeSegmentIndex = 0) :=
  initial_window_iff_active_index_zero (buildFromIds ["a", "b", "c"]) "b" 1 false _ rfl

/-- C2: after `addSegment "a"`, `clear_`, `addSegment "b"`, the id `"b"`
is assigned index 0 and its element (creation counter 1) is the only root
child, but `clear_` left the stale element 0 in the `segments_` array, so
position 0 of `segments_` still holds the element built for `"a"` — the
registry/sequence invariant the claim states is broken by the code. -/
theorem clear_leaves_stale_segments_array :
    lookupId (addSegment (clearOp (addSegment initState "a")) "b").segmentIdMap "b" =
        some 0 ∧
      (addSegment (clearOp (addSegment initState "a")) "b").rootChildren = [1] ∧
      (addSegment (clearOp (addSegment initState "a")) "b").segments = [0, 1] ∧
      (clearOp (addSegment initState "a")).segments = [0] ∧
      (addSegment (clearOp (addSegment initState "a")) "b").segmentCount = 1 := by
  decide

/-- Every write emitted by the `updateSegments_` loop targets an index in
`[i, i+k)` other than the active one, fills 1 before the active index and
0 after, and carries the transition flag exactly when flagged and on the
previous segment. -/
theorem segLoop_mem (activeSegmentIndex prevSegmentIndex : Int) (animPrev : Bool) :
    ∀ (k : Nat) (i : Int) (w : FillWrite),
      w ∈ segLoop activeSegmentIndex prevSegmentIndex animPrev i k →
      i ≤ w.index ∧ w.index < i + (k : Int) ∧ w.index ≠ activeSegmentIndex ∧
        w.progress = (if w.index < activeSegmentIndex then (1 : ℚ) else 0) ∧
        w.withTransition = (animPrev && decide (w.index = prevSegmentIndex)) := by
  intro k
  induction k with
  | zero => intro i w hw; cases hw
  | succ k ih =>
    intro i w hw
    unfold segLoop at hw
    by_cases hia : i = activeSegmentIndex
    · rw [if_pos hia] at hw
      rcases ih (i + 1) w hw with ⟨h1, h2, h3, h4, h5⟩
      refine ⟨by omega, by omega, h3, h4, h5⟩
    · rw [if_neg hia] at hw
      rcases List.mem_cons.mp hw with heq | hmem
      · subst heq
        refine ⟨le_refl _, ?_, hia, rfl, rfl⟩
        · show i < i + ((k + 1 : Nat) : Int)
          omega
      · rcases ih (i + 1) w hmem with ⟨h1, h2, h3, h4, h5⟩
        refine ⟨by omega, by omega, h3, h4, h5⟩

/-- The `updateSegments_` loop flags at most one write for animation. -/
theorem segLoop_flag_count (activeSegmentIndex prevSegmentIndex : Int) (animPrev : Bool) :
    ∀ (k : Nat) (i : Int),
      (segLoop activeSegmentIndex prevSegmentIndex animPrev i k).countP
          (fun w => w.withTransition) ≤ 1 := by
  intro k
  induction k with
  | zero => intro i; simp [segLoop]
  | succ k ih =>
    intro i
    unfold segLoop
    by_cases hia : i = activeSegmentIndex
    · rw [if_pos hia]
      exact ih (i + 1)
    · rw [if_neg hia, List.countP_cons]
      by_cases hflag : (animPrev && decide (i = prevSegmentIndex)) = true
      · obtain ⟨ha, hib⟩ : animPrev = true ∧ i = prevSegmentIndex := by simpa using hflag
        have hrest :
            (segLoop activeSegmentIndex prevSegmentIndex animPrev (i + 1) k).countP
              (fun w => w.withTransition) = 0 := by
          rw [List.countP_eq_zero]
          intro w hw
          rcases segLoop_mem activeSegmentIndex prevSegmentIndex animPrev k (i + 1) w hw with
            ⟨h1, _, _, _, h5⟩
          have hne : w.index ≠ prevSegmentIndex := by omega
          simp [h5, hne]
        simp [hrest, hflag]
      · simp only [Bool.not_eq_true] at hflag
        simp only [hflag]
        simpa using ih (i + 1)

/-- The `shouldAnimatePreviousSegment` boolean, as a proposition. -/
theorem shouldAnimatePrevious_iff (activeSegmentIndex : Int) (activeSegmentProgress : ℚ)
    (prevSegmentIndex : Int) (prevSegmentProgress : ℚ) :
    shouldAnimatePrevious activeSegmentIndex activeSegmentProgress prevSegmentIndex
        prevSegmentProgress = true ↔
      ((prevSegmentProgress = 1 ∧ activeSegmentProgress = 1) ∨
        (activeSegmentIndex > prevSegmentIndex ∧ activeSegmentProgress ≠ 1) ∨
        (prevSegmentIndex > activeSegmentIndex ∧ activeSegmentProgress = 1)) := by
  unfold shouldAnimatePrevious
  simp only [Bool.or_eq_true, Bool.and_eq_true, decide_eq_true_eq]
  tauto

/-- The `updateSegments_` loop writes each index in `[i, i+k)` other than
the active one exactly once, and writes nothing else. -/
theorem segLoop_count_index (activeSegmentIndex prevSegmentIndex : Int) (animPrev : Bool) :
    ∀ (k : Nat) (i j : Int),
      (segLoop activeSegmentIndex prevSegmentIndex animPrev i k).countP
          (fun w => decide (w.index = j)) =
        if i ≤ j ∧ j < i + (k : Int) ∧ j ≠ activeSegmentIndex then 1 else 0 := by
  intro k
  induction k with
  | zero =>
    intro i j
    rw [segLoop]
    simp only [List.countP_nil]
    split_ifs with h
    · exfalso; push_cast at h; omega
    · rfl
  | succ k ih =>
    intro i j
    unfold segLoop
    by_cases hia : i = activeSegmentIndex
    · rw [if_pos hia, ih (i + 1) j]
      split_ifs <;> omega
    · rw [if_neg hia, List.countP_cons, ih (i + 1) j]
      dsimp only
      simp only [decide_eq_true_eq]
      split_ifs <;> omega

/-- C7: `updateSegments_` writes exactly the non-active indices in
`[0, segmentCount)`, once each; every such segment's fill is set to 1
before the new active index and 0 after; at most one write is flagged for
animation; and a write is flagged exactly when it targets the previous
segment and one of the three animation conditions holds (so the previous
segment, when non-active and in range, does carry the flag whenever a
condition holds). -/
theorem updateSegments_fills_and_animation :
    ∀ (activeSegmentIndex : Int) (activeSegmentProgress : ℚ) (prevSegmentIndex : Int)
      (prevSegmentProgress : ℚ) (segmentCount : Int),
      (∀ j : Int,
          (updateSegments activeSegmentIndex activeSegmentProgress prevSegmentIndex
                prevSegmentProgress segmentCount).countP (fun w => decide (w.index = j)) =
            if 0 ≤ j ∧ j < segmentCount ∧ j ≠ activeSegmentIndex then 1 else 0) ∧
        (∀ j : Int, 0 ≤ j → j < segmentCount → j ≠ activeSegmentIndex →
          ∃ w ∈ updateSegments activeSegmentIndex activeSegmentProgress prevSegmentIndex
              prevSegmentProgress segmentCount,
            w.index = j ∧ w.progress = (if j < activeSegmentIndex then (1 : ℚ) else 0) ∧
              (w.withTransition = true ↔
                (j = prevSegmentIndex ∧
                  ((prevSegmentProgress = 1 ∧ activeSegmentProgress = 1) ∨
                    (activeSegmentIndex > prevSegmentIndex ∧ activeSegmentProgress ≠ 1) ∨
                    (prevSegmentIndex > activeSegmentIndex ∧ activeSegmentProgress = 1))))) ∧
        ((updateSegments activeSegmentIndex activeSegmentProgress prevSegmentIndex
              prevSegmentProgress segmentCount).countP (fun w => w.withTransition) ≤ 1) ∧
        ∀ w ∈ updateSegments activeSegmentIndex activeSegmentProgress prevSegmentIndex
            prevSegmentProgress segmentCount,
          w.index ≠ activeSegmentIndex ∧
            w.progress = (if w.index < activeSegmentIndex then (1 : ℚ) else 0) ∧
            (w.withTransition = true ↔
              (w.index = prevSegmentIndex ∧
                ((prevSegmentProgress = 1 ∧ activeSegmentProgress = 1) ∨
                  (activeSegmentIndex > prevSegmentIndex ∧ activeSegmentProgress ≠ 1) ∨
                  (prevSegmentIndex > activeSegmentIndex ∧ activeSegmentProgress = 1)))) := by
  intro a p b q n
  have hall :
      ∀ w ∈ updateSegments a p b q n,
        w.index ≠ a ∧ w.progress = (if w.index < a then (1 : ℚ) else 0) ∧
          (w.withTransition = true ↔
            (w.index = b ∧
              ((q = 1 ∧ p = 1) ∨ (a > b ∧ p ≠ 1) ∨ (b > a ∧ p = 1)))) := by
    intro w hw
    rcases segLoop_mem a b _ n.toNat 0 w hw with ⟨_, _, h3, h4, h5⟩
    refine ⟨h3, h4, ?_⟩
    rw [h5]
    simp only [Bool.and_eq_true, decide_eq_true_eq, shouldAnimatePrevious_iff]
    constructor
    · rintro ⟨h6, h7⟩; exact ⟨h7, h6⟩
    · rintro ⟨h6, h7⟩; exact ⟨h7, h6⟩
  have hcnt :
      ∀ j : Int,
        (updateSegments a p b q n).countP (fun w => decide (w.index = j)) =
          if 0 ≤ j ∧ j < n ∧ j ≠ a then 1 else 0 := by
    intro j
    unfold updateSegments
    rw [segLoop_count_index a b _ n.toNat 0 j]
    split_ifs with h1 h2 h2 <;> first | rfl | (exfalso; omega)
  refine ⟨hcnt, ?_, segLoop_flag_count a b _ n.toNat 0, hall⟩
  intro j hj0 hjn hja
  have h1 := hcnt j
  rw [if_pos ⟨hj0, hjn, hja⟩] at h1
  have hpos : 0 < (updateSegments a p b q n).countP (fun w => decide (w.index = j)) := by
    omega
  obtain ⟨w, hw, hwj⟩ := List.countP_pos_iff.mp hpos
  have hwidx : w.index = j := of_decide_eq_true hwj
  rcases hall w hw with ⟨_, hprog, hiff⟩
  rw [hwidx] at hprog hiff
  exact ⟨w, hw, hwidx, hprog, hiff⟩

/-- Witness for C7: three segments, moving forward from segment 0 (fully
played) into segment 1 at progress 0 — index 0 is written with fill 1 and
carries the animation flag by condition (b), and at most one write is
flagged. -/
theorem updateSegments_fills_and_animation_witness :
    ((updateSegments 1 0 0 1 3).countP (fun w => w.withTransition) ≤ 1) ∧
      ∃ w ∈ updateSegments 1 0 0 1 3,
        w.index = 0 ∧ w.progress = (if (0 : Int) < 1 then (1 : ℚ) else 0) ∧
          (w.withTransition = true ↔
            ((0 : Int) = 0 ∧
              (((1 : ℚ) = 1 ∧ (0 : ℚ) = 1) ∨
                ((1 : Int) > 0 ∧ (0 : ℚ) ≠ 1) ∨
                ((0 : Int) > 1 ∧ (0 : ℚ) = 1)))) :=
  ⟨(updateSegments_fills_and_animation 1 0 0 1 3).2.2.1,
    (updateSegments_fills_and_animation 1 0 0 1 3).2.1 0 (by decide) (by decide) (by decide)⟩

/-- The window and registry bounds the component maintains: a nonnegative
count, a window start in `[0, segmentCount - MAX_SEGMENTS]` once the
count exceeds the budget and pinned at 0 otherwise, and only in-range
indices in the id map. -/
def WindowInv (s : State) : Prop :=
  0 ≤ s.segmentCount ∧ 0 ≤ s.firstExpandedSegmentIndex ∧
    (MAX_SEGMENTS < s.segmentCount →
      s.firstExpandedSegmentIndex ≤ s.segmentCount - MAX_SEGMENTS) ∧
    (s.segmentCount ≤ MAX_SEGMENTS → s.firstExpandedSegmentIndex = 0) ∧
    ∀ pr ∈ s.segmentIdMap, 0 ≤ pr.2 ∧ pr.2 < s.segmentCount

theorem windowInv_init : WindowInv initState := by
  refine ⟨by decide, by decide, by decide, by decide, ?_⟩
  intro pr hpr
  cases hpr

theorem windowInv_addSegment (s : State) (id : String) (h : WindowInv s) :
    WindowInv (addSegment s id) := by
  unfold addSegment
  split_ifs with hc
  · exact h
  · obtain ⟨h1, h2, h3, h4, h5⟩ := h
    unfold addSegmentRaw buildSegmentEl
    refine ⟨by dsimp only; omega, h2, ?_, ?_, ?_⟩
    · dsimp only
      intro hn
      rcases le_or_lt s.segmentCount MAX_SEGMENTS with hle | hlt
      · have := h4 hle
        unfold MAX_SEGMENTS at *
        omega
      · have := h3 hlt
        omega
    · dsimp only
      intro hn
      exact h4 (by omega)
    · dsimp only
      intro pr hpr
      rcases List.mem_append.mp hpr with hold | hnew
      · have := h5 pr hold
        omega
      · rcases List.mem_singleton.mp hnew with rfl
        dsimp only
        omega

theorem windowInv_buildFromIds (ids : List String) : WindowInv (buildFromIds ids) := by
  unfold buildFromIds
  have hfold : ∀ (l : List String) (s : State), WindowInv s → WindowInv (l.foldl addSegment s) := by
    intro l
    induction l with
    | nil => intro s h; exact h
    | cons a t ih => intro s h; exact ih _ (windowInv_addSegment s a h)
  exact hfold ids initState windowInv_init

theorem getInitial_bounds (idx n fv : Int) (hidx : 0 ≤ idx) (hin : idx < n)
    (h0 : 0 ≤ fv) (hgt : MAX_SEGMENTS < n → fv ≤ n - MAX_SEGMENTS)
    (hle : n ≤ MAX_SEGMENTS → fv = 0) :
    0 ≤ getInitialFirstExpandedSegmentIndex idx n fv ∧
      (MAX_SEGMENTS < n → getInitialFirstExpandedSegmentIndex idx n fv ≤ n - MAX_SEGMENTS) ∧
      (n ≤ MAX_SEGMENTS → getInitialFirstExpandedSegmentIndex idx n fv = 0) := by
  unfold getInitialFirstExpandedSegmentIndex MAX_SEGMENTS at *
  split_ifs with h1 h2 <;> omega

theorem checkOverflow_bounds (idx fv n : Int) (hidx : 0 ≤ idx) (hin : idx < n)
    (h0 : 0 ≤ fv) (hgt : MAX_SEGMENTS < n → fv ≤ n - MAX_SEGMENTS)
    (hle : n ≤ MAX_SEGMENTS → fv = 0) :
    0 ≤ (checkIndexForOverflow idx fv n).1 ∧
      (MAX_SEGMENTS < n → (checkIndexForOverflow idx fv n).1 ≤ n - MAX_SEGMENTS) ∧
      (n ≤ MAX_SEGMENTS → (checkIndexForOverflow idx fv n).1 = 0) := by
  unfold checkIndexForOverflow MAX_SEGMENTS SEGMENT_INCREMENT at *
  split_ifs with h1 h2 h3 <;> dsimp only <;> omega

theorem lookupId_mem (m : List (String × Int)) (id : String) (v : Int)
    (h : lookupId m id = some v) : ∃ pr ∈ m, pr.2 = v := by
  unfold lookupId at h
  cases hf : m.find? (fun pr => pr.1 = id) with
  | none => rw [hf] at h; cases h
  | some pr =>
    rw [hf] at h
    injection h with h2
    exact ⟨pr, List.mem_of_find?_eq_some hf, h2⟩

theorem windowInv_update (s : State) (id : String) (p : ℚ) (u : Bool) (out : UpdateOutcome)
    (h : WindowInv s) (hok : updateProgress s id p u = Except.ok out) :
    WindowInv out.state := by
  unfold updateProgress at hok
  cases hlook : lookupId s.segmentIdMap id with
  | none => rw [hlook] at hok; cases hok
  | some idx =>
    rw [hlook] at hok
    injection hok with hout
    subst hout
    obtain ⟨h1, h2, h3, h4, h5⟩ := h
    obtain ⟨pr, hmem, hv⟩ := lookupId_mem _ _ _ hlook
    have hidx0 : 0 ≤ idx := by have := h5 pr hmem; omega
    have hidxn : idx < s.segmentCount := by have := h5 pr hmem; omega
    have hfv1 :
        0 ≤ (if s.activeSegmentIndex = 0 then
              getInitialFirstExpandedSegmentIndex idx s.segmentCount
                s.firstExpandedSegmentIndex
            else s.firstExpandedSegmentIndex) ∧
          (MAX_SEGMENTS < s.segmentCount →
            (if s.activeSegmentIndex = 0 then
                getInitialFirstExpandedSegmentIndex idx s.segmentCount
                  s.firstExpandedSegmentIndex
              else s.firstExpandedSegmentIndex) ≤ s.segmentCount - MAX_SEGMENTS) ∧
          (s.segmentCount ≤ MAX_SEGMENTS →
            (if s.activeSegmentIndex = 0 then
                getInitialFirstExpandedSegmentIndex idx s.segmentCount
                  s.firstExpandedSegmentIndex
              else s.firstExpandedSegmentIndex) = 0) := by
      split_ifs with ha
      · exact getInitial_bounds idx s.segmentCount s.firstExpandedSegmentIndex hidx0 hidxn
          h2 h3 h4
      · exact ⟨h2, h3, h4⟩
    have hb2 := checkOverflow_bounds idx _ s.segmentCount hidx0 hidxn hfv1.1 hfv1.2.1 hfv1.2.2
    exact ⟨h1, hb2.1, hb2.2.1, hb2.2.2, fun pr2 hpr2 => h5 pr2 hpr2⟩

theorem windowInv_replay (s : State) (h : WindowInv s) : WindowInv (replayOp s) := by
  obtain ⟨h1, h2, h3, h4, h5⟩ := h
  unfold replayOp WindowInv
  dsimp only
  refine ⟨h1, le_refl 0, ?_, fun _ => rfl, fun pr hpr => h5 pr hpr⟩
  intro hn
  unfold MAX_SEGMENTS at *
  omega

theorem reachable_windowInv (s : State) (h : Reachable s) : WindowInv s := by
  induction h with
  | build ids => exact windowInv_buildFromIds ids
  | update s id p u out hs hok ih => exact windowInv_update s id p u out ih hok
  | replay s hs ih => exact windowInv_replay s ih

/-- C5: in every state reachable through the public operations,
`0 ≤ firstExpandedSegmentIndex ≤ max 0 (segmentCount - MAX_SEGMENTS)`
whenever the count exceeds the budget, and with at most `MAX_SEGMENTS`
segments the window start stays 0 and both ellipsis counts are 0. -/
theorem window_invariant_reachable (s : State) (h : Reachable s) :
    (MAX_SEGMENTS < s.segmentCount →
        0 ≤ s.firstExpandedSegmentIndex ∧
          s.firstExpandedSegmentIndex ≤ max 0 (s.segmentCount - MAX_SEGMENTS)) ∧
      (s.segmentCount ≤ MAX_SEGMENTS →
        s.firstExpandedSegmentIndex = 0 ∧
          getPrevEllipsisCount s.firstExpandedSegmentIndex = 0 ∧
          getNextEllipsisCount s.firstExpandedSegmentIndex s.segmentCount = 0) := by
  obtain ⟨h1, h2, h3, h4, _⟩ := reachable_windowInv s h
  constructor
  · intro hn
    have := h3 hn
    exact ⟨h2, by omega⟩
  · intro hn
    have h40 := h4 hn
    refine ⟨h40, ?_, ?_⟩
    · unfold getPrevEllipsisCount
      rw [h40]
      rfl
    · unfold getNextEllipsisCount
      rw [h40]
      unfold MAX_SEGMENTS at *
      dsimp only
      split_ifs with hgt
      · omega
      · omega

/-- Witness for C5 at the one-segment story reached by a single build. -/
theorem window_invariant_reachable_witness :
    (buildFromIds ["a"]).firstExpandedSegmentIndex = 0 ∧
      getPrevEllipsisCount (buildFromIds ["a"]).firstExpandedSegmentIndex = 0 ∧
      getNextEllipsisCount (buildFromIds ["a"]).firstExpandedSegmentIndex
        (buildFromIds ["a"]).segmentCount = 0 :=
  (window_invariant_reachable (buildFromIds ["a"]) (Reachable.build ["a"])).2 (by decide)

/-- The window dynamics of `windowStep` are exactly those of a successful
`updateProgress` call with resolved index `idx`. -/
theorem windowStep_spec (s : State) (id : String) (idx : Int) (p : ℚ) (u : Bool) :
    ((updateProgressCore s id idx p u).state.activeSegmentIndex,
        (updateProgressCore s id idx p u).state.firstExpandedSegmentIndex) =
      windowStep s.segmentCount (s.activeSegmentIndex, s.firstExpandedSegmentIndex) idx :=
  rfl

/-- Inductive invariant of the monotone forward walk: after `k` updates
the active index is `k - 1` (0 before any update) and the window start is
nonnegative, at most `n - MAX_SEGMENTS`, at most the last active index,
and within `MAX_SEGMENTS` of it. -/
def WalkInv (n : Int) (k : Nat) : Prop :=
  (walkFv n k).1 = max 0 ((k : Int) - 1) ∧
    0 ≤ (walkFv n k).2 ∧
    (walkFv n k).2 ≤ n - MAX_SEGMENTS ∧
    (walkFv n k).2 ≤ max 0 ((k : Int) - 1) ∧
    max 0 ((k : Int) - 1) < (walkFv n k).2 + MAX_SEGMENTS

theorem walkInv_zero (n : Int) (hn : MAX_SEGMENTS < n) : WalkInv n 0 := by
  unfold WalkInv MAX_SEGMENTS at *
  simp [walkFv]
  omega

theorem walkInv_step (n : Int) (hn : MAX_SEGMENTS < n) (k : Nat) (hk : (k : Int) < n)
    (h : WalkInv n k) : WalkInv n (k + 1) ∧ (walkFv n k).2 ≤ (walkFv n (k + 1)).2 := by
  obtain ⟨ha, h0, hub, hle, hwin⟩ := h
  have hfv1 :
      (if (walkFv n k).1 = 0 then
          getInitialFirstExpandedSegmentIndex (k : Int) n (walkFv n k).2
        else (walkFv n k).2) =
        (walkFv n k).2 := by
    split_ifs with hz
    · rw [ha] at hz
      unfold getInitialFirstExpandedSegmentIndex MAX_SEGMENTS
      split_ifs with g1 g2 <;> omega
    · rfl
  have hstep :
      walkFv n (k + 1) = ((k : Int), (checkIndexForOverflow (k : Int) (walkFv n k).2 n).1) := by
    show windowStep n (walkFv n k) (k : Int) = _
    simp only [windowStep]
    rw [hfv1]
  unfold WalkInv
  rw [hstep]
  unfold checkIndexForOverflow MAX_SEGMENTS SEGMENT_INCREMENT at *
  split_ifs with g1 g2 <;> dsimp only <;> push_cast <;> omega

theorem walkInv_all (n : Int) (hn : MAX_SEGMENTS < n) :
    ∀ k : Nat, (k : Int) ≤ n → WalkInv n k := by
  intro k
  induction k with
  | zero => intro _; exact walkInv_zero n hn
  | succ k ih =>
    intro hk1
    push_cast at hk1
    have hk : (k : Int) < n := by omega
    exact (walkInv_step n hn k hk (ih (by omega))).1

/-- C6: issuing, from a fresh state with `n > MAX_SEGMENTS` segments,
progress updates for indices `0, 1, …, n-1` in order, the window start
never decreases, after each update the active index lies inside the
visible-or-overflow range, and after the last update the window ends
exactly at `n`. -/
theorem forward_walk_monotone_pinned (n : Int) (hn : MAX_SEGMENTS < n) :
    (∀ k : Nat, (k : Int) < n → (walkFv n k).2 ≤ (walkFv n (k + 1)).2) ∧
      (∀ k : Nat, (k : Int) < n →
        (walkFv n (k + 1)).2 - getPrevEllipsisCount (walkFv n (k + 1)).2 ≤ (k : Int) ∧
          (k : Int) <
            (walkFv n (k + 1)).2 + MAX_SEGMENTS +
              getNextEllipsisCount (walkFv n (k + 1)).2 n) ∧
      (walkFv n n.toNat).2 + MAX_SEGMENTS = n := by
  refine ⟨?_, ?_, ?_⟩
  · intro k hk
    exact (walkInv_step n hn k hk (walkInv_all n hn k (le_of_lt hk))).2
  · intro k hk
    obtain ⟨ha, h0, hub, hle, hwin⟩ := walkInv_all n hn (k + 1) (by push_cast; omega)
    unfold getPrevEllipsisCount getNextEllipsisCount MAX_SEGMENTS at *
    push_cast at *
    constructor
    · omega
    · dsimp only
      split_ifs with g <;> omega
  · have hn20 : (20 : Int) < n := hn
    have hcast : ((n.toNat : Int)) = n := Int.toNat_of_nonneg (by omega)
    obtain ⟨ha, h0, hub, hle, hwin⟩ := walkInv_all n hn n.toNat (by rw [hcast])
    rw [hcast] at hle hwin
    unfold MAX_SEGMENTS at *
    omega

/-- Witness for C6 at a fifty-segment story: after the full forward walk
the window is pinned with its end at the segment count. -/
theorem forward_walk_monotone_pinned_witness :
    (walkFv 50 (50 : Int).toNat).2 + MAX_SEGMENTS = 50 :=
  (forward_walk_monotone_pinned 50 (by decide)).2.2

end ProgressBar
